import Mathlib

/-!
# juggler: call polling pipeline and test cluster setup

A shallow embedding of

* `broker/redisbroker/calls.go` (`callsConn`: `Calls`, `CallsErr`, `pollCalls`,
  `sendCall`, `unmarshalBRPOPValue`, `delAndPTTLScript`),
* `internal/redistest/server.go` (`StartCluster`, the slot assignment),
* `Cluster.RefreshMapping` of `redisc`, of which only `redisc/cluster_test.go`
  is at hand: it is modelled from the specification and exercised the way the
  two tests do,

followed by the theorems about them.

Conventions. Go `int`, `int64` and `time.Duration` are 64-bit two's complement
integers (the `int` of amd64/arm64); they are embedded as `Int` and every
arithmetic operation that can leave the range is wrapped with `wrap64`. The
counters of `expvar.Map` are embedded as unbounded integers.

`sendCall` and `Calls` are embedded as state transformers run to completion.
The goroutines are embedded as an interleaving transition system (`Sys`,
`step`): the poll loop of `pollCalls`, one iteration per pop result, its
`wg.Wait()` and deferred `close`, and the per-item tasks with their deferred
`wg.Done()`.
-/

namespace Juggler

/-! ## Machine integers and durations -/

/-- Two's complement wrap of an integer to the 64-bit signed range. -/
def wrap64 (x : Int) : Int := (x + 2 ^ 63) % 2 ^ 64 - 2 ^ 63

/-- Go `time.Duration`: a signed 64-bit count of nanoseconds. -/
abbrev Duration := Int

/-- Go `time.Millisecond`. -/
def Millisecond : Duration := 1000000

/-- Go `time.Second`. -/
def Second : Duration := 1000000000

/-- Largest value of a Go `int64`. -/
def maxInt64 : Int := 9223372036854775807

/-- The conversion `time.Duration(n)` of a Go `int`. -/
def toDuration (n : Int) : Duration := wrap64 n

/-- The product `a * b` of two `time.Duration` values (64-bit, wrapping). -/
def durationMul (a b : Duration) : Duration := wrap64 (a * b)

/-- The quotient `a / b` of two `time.Duration` values: Go integer division
truncates toward zero. -/
def durationDiv (a b : Duration) : Duration := wrap64 (Int.tdiv a b)

/-! ## Errors, replies, payloads -/

/-- A Go `error` value as seen by `calls.go`: either the sentinel
`redis.ErrNil` (compared by identity in `pollCalls`) or any other error, with
its message. -/
inductive GoError where
  | errNil : GoError
  | other (msg : String) : GoError
deriving DecidableEq, Repr

/-- The `Error()` string of an error, as printed by the `%v` verb. -/
def GoError.Error : GoError → String
  | .errNil => "redigo: nil returned"
  | .other msg => msg

/-- One element of a redis reply array (`interface{}` in `[]interface{}`). -/
inductive Reply where
  | null : Reply
  | bulk (b : String) : Reply
  | integer (n : Int) : Reply
deriving DecidableEq, Repr

/-- The fields of `message.CallPayload` that `sendCall` reads or writes, plus
the opaque arguments. `ReadTimestamp` is a clock reading, `TTLAfterRead` a
`time.Duration`. -/
structure CallPayload where
  URI : String
  MsgUUID : String
  Args : String
  ReadTimestamp : Int
  TTLAfterRead : Duration
deriving DecidableEq, Repr

/-- What `calls.go` uses but does not define: the two library decoders called
by `unmarshalBRPOPValue` and the two key format constants of the package
(`callKey`, `callTimeoutKey`), each taken as the function that `fmt.Sprintf`
computes from it. -/
structure Lib where
  /-- Embeds `redis.Scan(src, nil, &p)`: the bytes `p`, or the error. -/
  redisScan : List Reply → Except GoError String
  /-- Embeds `json.Unmarshal(p, dst)` on a zero `CallPayload`. -/
  jsonUnmarshal : String → Except GoError CallPayload
  /-- Embeds `fmt.Sprintf(callKey, uri)`. -/
  callKey : String → String
  /-- Embeds `fmt.Sprintf(callTimeoutKey, uri, msgUUID)`. -/
  callTimeoutKey : String → String → String

/-! ## The key/TTL store and the expiry-check script -/

/-- A key/TTL store: `none` for an absent key, `some none` for a key without
expiry, `some (some t)` for a key with `t` milliseconds left to live. -/
abbrev Store := String → Option (Option Nat)

/-- Redis `PTTL key`: remaining milliseconds, `-1` for a key without expiry,
`-2` for a missing key. -/
def Store.pttl (s : Store) (key : String) : Int :=
  match s key with
  | none => -2
  | some none => -1
  | some (some t) => (t : Int)

/-- Redis `DEL key`. -/
def Store.del (s : Store) (key : String) : Store :=
  fun k => if k = key then none else s k

/-- Redis `SET key ... PX ttl` (or without expiry for `none`). -/
def Store.set (s : Store) (key : String) (ttl : Option Nat) : Store :=
  fun k => if k = key then some ttl else s k

/-- The passing of `d` milliseconds: keys whose remaining time is used up
disappear, the others have `d` milliseconds less to live. -/
def Store.elapse (s : Store) (d : Nat) : Store :=
  fun k =>
    match s k with
    | some (some t) => if t ≤ d then none else some (some (t - d))
    | r => r

/-- The Lua script `delAndPTTLScript` with `KEYS[1] = key`: reads the PTTL,
deletes the key, returns the value read. The second component is the store
after the script. -/
def delAndPTTLScript (s : Store) (key : String) : Int × Store :=
  let res := s.pttl key
  let s1 := s.del key
  (res, s1)

/-- An operation on the store, as seen from one timeout key: an expiry check
(the script) on a key, a write of a key, or time passing. -/
inductive StoreOp where
  | check (key : String) : StoreOp
  | write (key : String) (ttl : Option Nat) : StoreOp
  | elapse (d : Nat) : StoreOp
deriving DecidableEq, Repr

/-- Runs a sequence of store operations and collects, in order, what the
expiry checks on `key` returned. -/
def observed (key : String) : Store → List StoreOp → List Int
  | _, [] => []
  | s, .check k :: ops =>
    let r := delAndPTTLScript s k
    if k = key then r.1 :: observed key r.2 ops else observed key r.2 ops
  | s, .write k ttl :: ops => observed key (s.set k ttl) ops
  | s, .elapse d :: ops => observed key (s.elapse d) ops

/-- The connection pool as `sendCall` sees it: the store behind it and whether
a command sent on a borrowed connection fails (`some e`) or is served. -/
structure Pool where
  store : Store
  failure : Option GoError

/-- Embeds `redis.Int(delAndPTTLScript.Do(rc, k))` on a connection borrowed
from the pool: the error of a failing connection (the store is then left as it
is), else the integer the script returns, with the store after the script. -/
def expiryCheck (p : Pool) (k : String) : Except GoError Int × Pool :=
  match p.failure with
  | some e => (.error e, p)
  | none =>
    let r := delAndPTTLScript p.store k
    (.ok r.1, { p with store := r.2 })

/-! ## callsConn -/

/-- One argument of a redis command (`redis.Args` is `[]interface{}`). -/
inductive Arg where
  | str (s : String) : Arg
  | int (n : Int) : Arg
deriving DecidableEq, Repr

/-- The `callsConn` struct with the part of the world its methods act on.
Fields of the Go struct: `pool`, `uris`, `timeout`, `vars` (`none` for a nil
`*expvar.Map`, else the counters by name, a missing name counting as 0),
`once` (whether `sync.Once` has fired), `ch` (`none` for the nil channel, else
the identity of the channel made), `err`. The world: `log` (lines written
through `logFn`), `sent` (payloads sent on `ch`, in order), `now` (the reading
of `time.Now().UTC()`), `chansMade` (how many channels `make` has created) and
`pollLoops` (the argument list of every `go c.pollCalls(rc, args)` started). -/
structure callsConn where
  pool : Pool
  uris : List String
  timeout : Duration
  vars : Option (String → Int)
  once : Bool
  ch : Option Nat
  err : Option GoError
  log : List String
  sent : List CallPayload
  now : Int
  chansMade : Nat
  pollLoops : List (List Arg)

/-- Embeds `c.vars.Add(key, delta)` guarded by `if c.vars != nil`. -/
def varsAdd (vars : Option (String → Int)) (key : String) (delta : Int) :
    Option (String → Int) :=
  vars.map fun m k => if k = key then m k + delta else m k

/-- Embeds `CallsErr`: the value of `c.err` read under the mutex. -/
def CallsErr (c : callsConn) : Option GoError := c.err

/-- Embeds `unmarshalBRPOPValue(&cp, src)` for a zero `cp`. -/
def unmarshalBRPOPValue (L : Lib) (src : List Reply) : Except GoError CallPayload :=
  match L.redisScan src with
  | .error e => .error e
  | .ok p =>
    match L.jsonUnmarshal p with
    | .error e => .error e
    | .ok cp => .ok cp

/-- Embeds `sendCall(v, wg)` run to completion: the send `c.ch <- &cp` is taken
as received. The connection borrowed from the pool, routed by `clusterifyConn`
and closed on return is behind `expiryCheck`; the deferred `wg.Done()` is a
step of its own in the transition system below. -/
def sendCall (L : Lib) (c : callsConn) (v : List Reply) : callsConn :=
  match unmarshalBRPOPValue L v with
  | .error e =>
    { c with
      vars := varsAdd c.vars "FailedCallPayloadUnmarshals" 1
      log := c.log ++ ["Calls: BRPOP failed to unmarshal call payload: " ++ e.Error] }
  | .ok cp =>
    let k := L.callTimeoutKey cp.URI cp.MsgUUID
    match expiryCheck c.pool k with
    | (.error e, pool1) =>
      { c with
        pool := pool1
        vars := varsAdd c.vars "FailedPTTLCalls" 1
        log := c.log ++ ["Calls: DEL/PTTL failed: " ++ e.Error] }
    | (.ok pttl, pool1) =>
      if pttl ≤ 0 then
        { c with
          pool := pool1
          vars := varsAdd c.vars "ExpiredCalls" 1
          log := c.log ++ ["Calls: message " ++ cp.MsgUUID ++ " expired, dropping call"] }
      else
        let cp1 := { cp with
          ReadTimestamp := c.now
          TTLAfterRead := durationMul (toDuration pttl) Millisecond }
        { c with
          pool := pool1
          sent := c.sent ++ [cp1]
          vars := varsAdd c.vars "Calls" 1 }

/-- The four ways a per-item task can end. -/
inductive Outcome where
  | decodeFailure : Outcome
  | pttlFailure : Outcome
  | expired : Outcome
  | delivered : Outcome
deriving DecidableEq, Repr

/-- The counter that belongs to an outcome. -/
def Outcome.counter : Outcome → String
  | .decodeFailure => "FailedCallPayloadUnmarshals"
  | .pttlFailure => "FailedPTTLCalls"
  | .expired => "ExpiredCalls"
  | .delivered => "Calls"

/-- The outcome of one raw entry as the specification decides it, in this
order: decode failure, expiry-check failure, expired (PTTL ≤ 0), delivered
(PTTL > 0). -/
def specOutcome (L : Lib) (c : callsConn) (v : List Reply) : Outcome :=
  match unmarshalBRPOPValue L v with
  | .error _ => .decodeFailure
  | .ok cp =>
    match (expiryCheck c.pool (L.callTimeoutKey cp.URI cp.MsgUUID)).1 with
    | .error _ => .pttlFailure
    | .ok pttl => if pttl ≤ 0 then .expired else .delivered

/-- Embeds `Calls`: the `sync.Once` body runs on the first invocation only. It
makes the channel, computes one key per URI and the timeout in whole seconds,
builds `redis.Args{}.AddFlat(keys).Add(to)` (`secs` is the `to` of the source) and starts the poll loop with it.
(`clusterifyConn` only chooses the connection the loop polls on.) Returns
`c.ch` and the state after the call. -/
def Calls (L : Lib) (c : callsConn) : Option Nat × callsConn :=
  let c1 :=
    if c.once then c
    else
      let keys := c.uris.map L.callKey
      let secs := wrap64 (durationDiv c.timeout Second)
      let args := keys.map Arg.str ++ [Arg.int secs]
      { c with
        once := true
        ch := some c.chansMade
        chansMade := c.chansMade + 1
        pollLoops := c.pollLoops ++ [args] }
  (c1.ch, c1)

/-- Runs `Calls` `n` times in a row: the streams returned, in order, and the
state after the last invocation. -/
def callsTimes (L : Lib) : Nat → callsConn → List (Option Nat) × callsConn
  | 0, c => ([], c)
  | n + 1, c =>
    let r := Calls L c
    let rest := callsTimes L n r.2
    (r.1 :: rest.1, rest.2)

/-- A `callsConn` as its constructor leaves it: the configuration set, the
other fields at their zero value, nothing logged, sent or started yet. -/
def newCallsConn (pool : Pool) (uris : List String) (timeout : Duration)
    (vars : Option (String → Int)) (now : Int) : callsConn :=
  { pool := pool, uris := uris, timeout := timeout, vars := vars, once := false,
    ch := none, err := none, log := [], sent := [], now := now, chansMade := 0,
    pollLoops := [] }

/-! ## The poll loop and its per-item tasks as a transition system -/

/-- What `redis.Values(pollConn.Do("BRPOP", pollArgs...))` returns: a value
array, or an error (`redis.ErrNil` when no value came within the timeout). -/
inductive PopResult where
  | value (v : List Reply) : PopResult
  | failure (err : GoError) : PopResult
deriving DecidableEq, Repr

/-- Where the `pollCalls` goroutine stands: not started, in the `for` loop
(about to pop), in `wg.Wait()` after recording the error, or returned (the
deferred `close(c.ch)` has run). -/
inductive LoopPC where
  | idle : LoopPC
  | polling : LoopPC
  | waiting : LoopPC
  | returned : LoopPC
deriving DecidableEq, Repr

/-- Where a `sendCall` goroutine stands: started, body finished with only the
deferred `wg.Done()` left, or finished. -/
inductive TaskPC where
  | spawned : TaskPC
  | finishing : TaskPC
  | done : TaskPC
deriving DecidableEq, Repr

/-- A per-item task: the raw BRPOP value it was started with and where it
stands. -/
structure Task where
  v : List Reply
  pc : TaskPC
deriving DecidableEq, Repr

/-- The state of a CallSource with its goroutines: the `callsConn`, the poll
loop, the `sync.WaitGroup` counter, the per-item tasks in spawn order, whether
`c.ch` is closed and how many times `close` ran, how many pops have returned,
and how many sends were attempted on the closed channel. -/
structure Sys where
  c : callsConn
  loop : LoopPC
  wg : Nat
  tasks : List Task
  closed : Bool
  closes : Nat
  pops : Nat
  lateSends : Nat

/-- The atomic steps: an invocation of `Calls`; a BRPOP returning `r` to the
poll loop; task `i` running the body of `sendCall`; task `i` running its
deferred `wg.Done()`; `wg.Wait()` returning, followed by the return of
`pollCalls` and its deferred `close(c.ch)`. -/
inductive Event where
  | calls : Event
  | pop (r : PopResult) : Event
  | run (i : Nat) : Event
  | done (i : Nat) : Event
  | wake : Event
deriving DecidableEq, Repr

/-- One iteration of the `for` loop of `pollCalls` on the pop result `r`: on
`redis.ErrNil` continue; on another error record it and leave the loop for
`wg.Wait()`; on a value `wg.Add(1)` and `go c.sendCall(v, &wg)`. -/
def pollCalls (s : Sys) (r : PopResult) : Sys :=
  let s := { s with pops := s.pops + 1 }
  match r with
  | .failure err =>
    if err = GoError.errNil then s
    else { s with c := { s.c with err := some err }, loop := .waiting }
  | .value v =>
    { s with wg := s.wg + 1, tasks := s.tasks ++ [{ v := v, pc := .spawned }] }

/-- The step function: `none` when the event is not enabled in `s`. -/
def step (L : Lib) (s : Sys) : Event → Option Sys
  | .calls =>
    if s.c.once then some s
    else some { s with c := (Calls L s.c).2, loop := .polling }
  | .pop r => if s.loop = .polling then some (pollCalls s r) else none
  | .run i =>
    match s.tasks[i]? with
    | some t =>
      if t.pc = .spawned then
        let c1 := sendCall L s.c t.v
        some { s with
          c := c1
          tasks := s.tasks.set i { t with pc := .finishing }
          lateSends :=
            if s.closed ∧ s.c.sent.length < c1.sent.length then s.lateSends + 1
            else s.lateSends }
      else none
    | none => none
  | .done i =>
    match s.tasks[i]? with
    | some t =>
      if t.pc = .finishing then
        some { s with wg := s.wg - 1, tasks := s.tasks.set i { t with pc := .done } }
      else none
    | none => none
  | .wake =>
    if s.loop = .waiting ∧ s.wg = 0 then
      some { s with loop := .returned, closed := true, closes := s.closes + 1 }
    else none

/-- Runs a sequence of events; `none` as soon as one is not enabled. -/
def run (L : Lib) : Sys → List Event → Option Sys
  | s, [] => some s
  | s, e :: es =>
    match step L s e with
    | some s1 => run L s1 es
    | none => none

/-- The initial state of a CallSource built on `c`: no goroutine yet. -/
def init (c : callsConn) : Sys :=
  { c := c, loop := .idle, wg := 0, tasks := [], closed := false, closes := 0,
    pops := 0, lateSends := 0 }

/-- The pop results of a trace, in order. -/
def popsOf : List Event → List PopResult
  | [] => []
  | .pop r :: es => r :: popsOf es
  | _ :: es => popsOf es

/-- The value arrays among pop results, in order. -/
def valuesOf : List PopResult → List (List Reply)
  | [] => []
  | .value v :: rs => v :: valuesOf rs
  | .failure _ :: rs => valuesOf rs

/-- A pop result that keeps the loop going: a value or "no value". -/
def PopResult.soft : PopResult → Bool
  | .value _ => true
  | .failure err => decide (err = GoError.errNil)

/-- Number of tasks that have not run their `wg.Done()` yet. -/
def pending : List Task → Nat
  | [] => 0
  | t :: ts => (if t.pc = .done then 0 else 1) + pending ts

/-! ## StartCluster: the slot assignment -/

/-- The constant `numNodes` of `StartCluster`. -/
def numNodes : Nat := 3

/-- The constant `hashSlots` of `StartCluster`. -/
def hashSlots : Nat := 16384

/-- The variable `slotsPerNode := hashSlots / numNodes`. -/
def slotsPerNode : Nat := hashSlots / numNodes

/-- The loop `for j := lo; ...; j++ { args = args.Add(j) }` with `n`
iterations left. -/
def addSlots (args : List Arg) : Nat → Nat → List Arg
  | _, 0 => args
  | j, n + 1 => addSlots (args ++ [Arg.int (j : Int)]) (j + 1) n

/-- The argument list that `StartCluster` sends with `CLUSTER` to node `i`:
`ADDSLOTS`, then `j` for `i*slotsPerNode ≤ j < (i+1)*slotsPerNode`, then for the
last node `j` for `slotsPerNode*numNodes ≤ j < hashSlots`. -/
def addSlotsArgs (i : Nat) : List Arg :=
  let args := [Arg.str "ADDSLOTS"]
  let args := addSlots args (i * slotsPerNode) ((i + 1) * slotsPerNode - i * slotsPerNode)
  if i = numNodes - 1 then
    addSlots args (slotsPerNode * numNodes) (hashSlots - slotsPerNode * numNodes)
  else args

/-- The slot numbers of an `ADDSLOTS` argument list, in order. -/
def slotsOf : List Arg → List Int
  | [] => []
  | .int n :: as => n :: slotsOf as
  | .str _ :: as => slotsOf as

/-! ## Cluster.RefreshMapping -/

/-- Modelled from the spec: a slot to node mapping of `redisc`, as slot ranges
with the address serving them. -/
abbrev Mapping := List (Nat × Nat × String)

/-- Modelled from the spec: what listens at an address for `redisc`: nothing,
a server not in cluster mode, or a node of a cluster that reports the mapping
`m`. -/
inductive Node where
  | down : Node
  | standalone : Node
  | clustered (m : Mapping) : Node
deriving DecidableEq, Repr

/-- Modelled from the spec: the topology query of `redisc` (not in the sources
at hand). A cluster node answers with the slot assignment as it sees it; an
unreachable address and a server that is not in cluster mode do not answer
it. -/
def topologyQuery (net : String → Node) (addr : String) : Except String Mapping :=
  match net addr with
  | .down => .error (addr ++ ": connection refused")
  | .standalone => .error (addr ++ ": ERR This instance has cluster support disabled")
  | .clustered m => .ok m

/-- Modelled from the spec: the `Cluster` of `redisc`, with the `StartupNodes`
field that the tests set and the current mapping. -/
structure Cluster where
  StartupNodes : List String
  mapping : Option Mapping

/-- Modelled from the spec: the loop of `RefreshMapping` over the startup
nodes, in order, until one answers; the failures met are collected. -/
def queryNodes (net : String → Node) : List String → List String → Except (List String) Mapping
  | [], errs => .error errs
  | addr :: rest, errs =>
    match topologyQuery net addr with
    | .ok m => .ok m
    | .error e => queryNodes net rest (errs ++ [e])

/-- Modelled from the spec: `Cluster.RefreshMapping` of `redisc` (only its tests
are in the sources at hand). Queries the startup nodes in order until one
answers the topology query, installs the mapping it gives in one swap, and
fails with an aggregate error naming that all nodes failed when none
answers. Returns the error (`none` for nil) and the cluster afterwards. -/
def RefreshMapping (net : String → Node) (c : Cluster) : Option GoError × Cluster :=
  match queryNodes net c.StartupNodes [] with
  | .ok m => (none, { c with mapping := some m })
  | .error errs =>
    (some (.other ("redisc: all nodes failed" ++ String.join (errs.map fun e => "\n" ++ e))), c)

/-- The check `assert.Contains(t, s, sub)` on strings: `sub` occurs in `s`. -/
def Contains (s sub : String) : Prop := sub.data <:+: s.data

/-! ## Examples used by the witnesses -/

/-- A library instance: the second reply element is the payload, whose text is
the message id of a call to `svc.echo`. -/
def exLib : Lib :=
  { redisScan := fun src =>
      match src with
      | [_, Reply.bulk b] => .ok b
      | _ => .error (.other "redigo.Scan: array short")
    jsonUnmarshal := fun p =>
      if p = "" then .error (.other "unexpected end of JSON input")
      else .ok { URI := "svc.echo", MsgUUID := p, Args := "", ReadTimestamp := 0, TTLAfterRead := 0 }
    callKey := fun uri => "juggler:calls:\x7b" ++ uri ++ "\x7d"
    callTimeoutKey := fun uri id => "juggler:calls:timeout:\x7b" ++ uri ++ "\x7d:" ++ id }

/-- A store in which every key has `t` milliseconds to live. -/
def exStore (t : Nat) : Store := fun _ => some (some t)

/-- A fresh `callsConn` with counters, polling `svc.echo` with a 2.5 s timeout,
over a healthy pool on `exStore t`. -/
def exConn (t : Nat) : callsConn :=
  newCallsConn { store := exStore t, failure := none } ["svc.echo"] 2500000000
    (some fun _ => 0) 1700000000

/-- A raw BRPOP entry for message `m1`. -/
def exRaw : List Reply := [Reply.bulk "juggler:calls:\x7bsvc.echo\x7d", Reply.bulk "m1"]


/-- The error of a BRPOP on a connection that was closed. -/
def exClosed : GoError := .other "use of closed network connection"

/-- A trace in which the fatal pop error arrives while the task for `m1` still
waits to run: `Calls`, an empty pop, the entry for `m1`, the fatal error. -/
def exTraceOpen : List Event :=
  [.calls, .pop (.failure .errNil), .pop (.value exRaw), .pop (.failure exClosed)]

/-- The trace `exTraceOpen` continued to the end: the task delivers and
finishes, then the loop wakes up, returns and closes the stream. -/
def exTraceClosed : List Event :=
  exTraceOpen ++ [.run 0, .done 0, .wake]

/-! ## Invariant of the transition system -/

/-- The invariant of the reachable states: the WaitGroup counter is the number
of tasks that have not run `wg.Done()`; the channel is closed exactly when the
poll loop has returned, which happens with a zero counter only; `close` ran
once if the channel is closed and never otherwise; no send was attempted on
the closed channel; and the loop has left `idle` only after `Calls` fired. -/
def Inv (s : Sys) : Prop :=
  s.wg = pending s.tasks ∧
  (s.closed = true ↔ s.loop = .returned) ∧
  (s.loop = .returned → s.wg = 0) ∧
  s.closes = (if s.closed = true then 1 else 0) ∧
  s.lateSends = 0 ∧
  (s.loop ≠ .idle → s.c.once = true)

/-- How a state relates to the pop results of the trace that led to it: one
pop counted and one task per value; while the loop is idle or polling all
results were values or "no value" and no error is recorded (none at all while
idle); once it waits or has returned, the last result is an error other than
`redis.ErrNil`, the only one, and it is the recorded error. -/
def TraceInv (rs : List PopResult) (s : Sys) : Prop :=
  s.pops = rs.length ∧
  s.tasks.map (fun t => t.v) = valuesOf rs ∧
  (s.loop = .idle → rs = []) ∧
  (s.loop = .idle ∨ s.loop = .polling → (∀ r ∈ rs, r.soft = true) ∧ s.c.err = none) ∧
  (s.loop = .waiting ∨ s.loop = .returned →
    ∃ pre e, rs = pre ++ [PopResult.failure e] ∧ e ≠ GoError.errNil ∧
      (∀ r ∈ pre, r.soft = true) ∧ s.c.err = some e)

/-! ## Theorems -/

/-! ### Helper lemmas -/

theorem wrap64_of_range (x : Int) (h0 : -9223372036854775808 ≤ x)
    (h1 : x < 9223372036854775808) : wrap64 x = x := by
  unfold wrap64
  have e63 : (2 : Int) ^ 63 = 9223372036854775808 := by norm_num
  have e64 : (2 : Int) ^ 64 = 18446744073709551616 := by norm_num
  rw [e63, e64, Int.emod_eq_of_lt (by omega) (by omega)]
  omega

/-- What `sendCall` does when the raw entry does not decode. -/
theorem sendCall_decodeFailure (L : Lib) (c : callsConn) (v : List Reply) (e : GoError)
    (hd : unmarshalBRPOPValue L v = .error e) :
    sendCall L c v =
      { c with
        vars := varsAdd c.vars "FailedCallPayloadUnmarshals" 1
        log := c.log ++ ["Calls: BRPOP failed to unmarshal call payload: " ++ e.Error] } ∧
    specOutcome L c v = .decodeFailure := by
  simp only [sendCall, specOutcome, hd, and_self]

/-- What `sendCall` does when the expiry check fails. -/
theorem sendCall_pttlFailure (L : Lib) (c : callsConn) (v : List Reply) (cp : CallPayload)
    (e : GoError) (pool1 : Pool) (hd : unmarshalBRPOPValue L v = .ok cp)
    (hc : expiryCheck c.pool (L.callTimeoutKey cp.URI cp.MsgUUID) = (.error e, pool1)) :
    sendCall L c v =
      { c with
        pool := pool1
        vars := varsAdd c.vars "FailedPTTLCalls" 1
        log := c.log ++ ["Calls: DEL/PTTL failed: " ++ e.Error] } ∧
    specOutcome L c v = .pttlFailure := by
  simp only [sendCall, specOutcome, hd, hc, and_self]

/-- What `sendCall` does when the expiry check reads a PTTL ≤ 0. -/
theorem sendCall_expired (L : Lib) (c : callsConn) (v : List Reply) (cp : CallPayload)
    (pttl : Int) (pool1 : Pool) (hd : unmarshalBRPOPValue L v = .ok cp)
    (hc : expiryCheck c.pool (L.callTimeoutKey cp.URI cp.MsgUUID) = (.ok pttl, pool1))
    (hp : pttl ≤ 0) :
    sendCall L c v =
      { c with
        pool := pool1
        vars := varsAdd c.vars "ExpiredCalls" 1
        log := c.log ++ ["Calls: message " ++ cp.MsgUUID ++ " expired, dropping call"] } ∧
    specOutcome L c v = .expired := by
  simp only [sendCall, specOutcome, hd, hc, hp, if_true, and_self]

/-- What `sendCall` does when the expiry check reads a PTTL > 0. -/
theorem sendCall_delivered (L : Lib) (c : callsConn) (v : List Reply) (cp : CallPayload)
    (pttl : Int) (pool1 : Pool) (hd : unmarshalBRPOPValue L v = .ok cp)
    (hc : expiryCheck c.pool (L.callTimeoutKey cp.URI cp.MsgUUID) = (.ok pttl, pool1))
    (hp : ¬ pttl ≤ 0) :
    sendCall L c v =
      { c with
        pool := pool1
        sent := c.sent ++ [{ cp with
          ReadTimestamp := c.now
          TTLAfterRead := durationMul (toDuration pttl) Millisecond }]
        vars := varsAdd c.vars "Calls" 1 } ∧
    specOutcome L c v = .delivered := by
  simp only [sendCall, specOutcome, hd, hc, hp, if_false, and_self]

/-- The counter part of C1, for a state `c1` that differs from `c` by one
`vars.Add(name, 1)`. -/
theorem varsAdd_one (vars : Option (String → Int)) (name : String) :
    (vars = none → varsAdd vars name 1 = none) ∧
    (∀ m, vars = some m → ∃ m1, varsAdd vars name 1 = some m1 ∧
      m1 name = m name + 1 ∧ ∀ k, k ≠ name → m1 k = m k) := by
  constructor
  · intro h; rw [h]; rfl
  · intro m h
    rw [h]
    refine ⟨_, rfl, ?_, ?_⟩
    · simp
    · intro k hk; simp [hk]

/-! ### C1 -/

/-- C1: for every raw BRPOP entry, `sendCall` ends in the one outcome that the
ordered decision (decode failure, expiry-check failure, expired for PTTL ≤ 0,
delivered for PTTL > 0) gives. It appends exactly one payload to the output
stream if and only if that outcome is delivered and leaves the stream as it is
otherwise; with a counter map it adds 1 to the counter of the outcome and
leaves every other counter (the four names being distinct) unchanged, without
a map there is still none; and the terminal error is not modified. -/
theorem sendCall_outcome (L : Lib) (c : callsConn) (v : List Reply) :
    (sendCall L c v).err = c.err ∧
    (specOutcome L c v = .delivered ↔ ∃ cp, (sendCall L c v).sent = c.sent ++ [cp]) ∧
    (specOutcome L c v ≠ .delivered ↔ (sendCall L c v).sent = c.sent) ∧
    (c.vars = none → (sendCall L c v).vars = none) ∧
    (∀ m, c.vars = some m → ∃ m1, (sendCall L c v).vars = some m1 ∧
      m1 (specOutcome L c v).counter = m (specOutcome L c v).counter + 1 ∧
      ∀ k, k ≠ (specOutcome L c v).counter → m1 k = m k) ∧
    (∀ o1 o2 : Outcome, o1.counter = o2.counter → o1 = o2) := by
  have hinj : ∀ o1 o2 : Outcome, o1.counter = o2.counter → o1 = o2 := by
    intro o1 o2
    cases o1 <;> cases o2 <;> simp [Outcome.counter]
  cases hd : unmarshalBRPOPValue L v with
  | error e =>
    obtain ⟨hs, ho⟩ := sendCall_decodeFailure L c v e hd
    rw [hs, ho]
    refine ⟨rfl, ?_, ?_, (varsAdd_one c.vars _).1, (varsAdd_one c.vars _).2, hinj⟩
    · simp
    · simp
  | ok cp =>
    rcases hc : expiryCheck c.pool (L.callTimeoutKey cp.URI cp.MsgUUID) with ⟨r, pool1⟩
    cases r with
    | error e =>
      obtain ⟨hs, ho⟩ := sendCall_pttlFailure L c v cp e pool1 hd hc
      rw [hs, ho]
      refine ⟨rfl, ?_, ?_, (varsAdd_one c.vars _).1, (varsAdd_one c.vars _).2, hinj⟩
      · simp
      · simp
    | ok pttl =>
      by_cases hp : pttl ≤ 0
      · obtain ⟨hs, ho⟩ := sendCall_expired L c v cp pttl pool1 hd hc hp
        rw [hs, ho]
        refine ⟨rfl, ?_, ?_, (varsAdd_one c.vars _).1, (varsAdd_one c.vars _).2, hinj⟩
        · simp
        · simp
      · obtain ⟨hs, ho⟩ := sendCall_delivered L c v cp pttl pool1 hd hc hp
        rw [hs, ho]
        refine ⟨rfl, ?_, ?_, (varsAdd_one c.vars _).1, (varsAdd_one c.vars _).2, hinj⟩
        · simp
        · simp

/-- Witness of C1: the entry for `m1`, whose timeout key has 5000 ms left, is
delivered: one payload is appended to the stream. -/
theorem sendCall_outcome_witness :
    specOutcome exLib (exConn 5000) exRaw = .delivered ∧
    ∃ cp, (sendCall exLib (exConn 5000) exRaw).sent = (exConn 5000).sent ++ [cp] :=
  have h : specOutcome exLib (exConn 5000) exRaw = .delivered := by
    simp [specOutcome, exLib, exConn, exRaw, unmarshalBRPOPValue, newCallsConn, expiryCheck,
      exStore, delAndPTTLScript, Store.pttl]
  ⟨h, (sendCall_outcome exLib (exConn 5000) exRaw).2.1.1 h⟩

/-! ### C2 -/

/-- C2 fails as stated: with 9223372036855 ms left on the timeout key (a
positive Go `int`), the payload is delivered with a `TTLAfterRead` that has
wrapped to a negative duration, not that many milliseconds. -/
theorem sendCall_ttlAfterRead_wraps :
    (expiryCheck (exConn 9223372036855).pool "juggler:calls:timeout:\x7bsvc.echo\x7d:m1").1
      = .ok 9223372036855 ∧
    (sendCall exLib (exConn 9223372036855) exRaw).sent.map (fun cp => cp.TTLAfterRead)
      = [-9223372036854551616] ∧
    ¬ (0 : Int) < -9223372036854551616 ∧
    (-9223372036854551616 : Int) ≠ 9223372036855 * Millisecond := by
  refine ⟨?_, ?_, by decide, by decide⟩
  · simp [exConn, newCallsConn, expiryCheck, exStore, delAndPTTLScript, Store.pttl]
  · simp [sendCall, exLib, exConn, exRaw, unmarshalBRPOPValue, newCallsConn, expiryCheck, exStore,
      delAndPTTLScript, Store.pttl, durationMul, toDuration, wrap64, Millisecond]

/-- C2, amended: every payload that `sendCall` places on the output stream comes
from an expiry check that returned some `p > 0`, and its `TTLAfterRead` is the
64-bit product of `p` and one millisecond; whenever `p` is at most
9223372036854 (the largest number of milliseconds a `time.Duration` can
hold) that product is exactly `p` milliseconds and strictly positive. -/
theorem sendCall_ttlAfterRead (L : Lib) (c : callsConn) (v : List Reply) (cp : CallPayload)
    (h : (sendCall L c v).sent = c.sent ++ [cp]) :
    ∃ cp0 p, unmarshalBRPOPValue L v = .ok cp0 ∧
      (expiryCheck c.pool (L.callTimeoutKey cp0.URI cp0.MsgUUID)).1 = .ok p ∧
      0 < p ∧
      cp.TTLAfterRead = durationMul (toDuration p) Millisecond ∧
      (p ≤ 9223372036854 → cp.TTLAfterRead = p * Millisecond ∧ 0 < cp.TTLAfterRead) := by
  cases hd : unmarshalBRPOPValue L v with
  | error e =>
    rw [(sendCall_decodeFailure L c v e hd).1] at h
    simp at h
  | ok cp0 =>
    rcases hc : expiryCheck c.pool (L.callTimeoutKey cp0.URI cp0.MsgUUID) with ⟨r, pool1⟩
    cases r with
    | error e =>
      rw [(sendCall_pttlFailure L c v cp0 e pool1 hd hc).1] at h
      simp at h
    | ok p =>
      by_cases hp : p ≤ 0
      · rw [(sendCall_expired L c v cp0 p pool1 hd hc hp).1] at h
        simp at h
      · rw [(sendCall_delivered L c v cp0 p pool1 hd hc hp).1] at h
        simp only [List.append_cancel_left_eq, List.cons.injEq, and_true] at h
        have hpos : 0 < p := by omega
        have hcp : cp.TTLAfterRead = durationMul (toDuration p) Millisecond := by rw [← h]
        refine ⟨cp0, p, rfl, by rw [hc], hpos, hcp, ?_⟩
        intro hle
        have h1 : toDuration p = p := wrap64_of_range p (by omega) (by omega)
        have h2 : durationMul p Millisecond = p * Millisecond := by
          unfold durationMul Millisecond
          exact wrap64_of_range _ (by omega) (by omega)
        rw [hcp, h1, h2]
        exact ⟨rfl, Int.mul_pos hpos (by unfold Millisecond; norm_num)⟩

/-- Witness of C2 (amended): the payload delivered for `m1` with 5000 ms left. -/
theorem sendCall_ttlAfterRead_witness :
    (sendCall exLib (exConn 5000) exRaw).sent = (exConn 5000).sent ++
      [{ URI := "svc.echo", MsgUUID := "m1", Args := "", ReadTimestamp := 1700000000,
         TTLAfterRead := 5000000000 }] ∧
    ∃ cp0 p, unmarshalBRPOPValue exLib exRaw = .ok cp0 ∧
      (expiryCheck (exConn 5000).pool (exLib.callTimeoutKey cp0.URI cp0.MsgUUID)).1 = .ok p ∧
      0 < p ∧
      (5000000000 : Int) = durationMul (toDuration p) Millisecond ∧
      (p ≤ 9223372036854 → (5000000000 : Int) = p * Millisecond ∧ (0 : Int) < 5000000000) :=
  have h : (sendCall exLib (exConn 5000) exRaw).sent = (exConn 5000).sent ++
      [{ URI := "svc.echo", MsgUUID := "m1", Args := "", ReadTimestamp := 1700000000,
         TTLAfterRead := 5000000000 }] := by
    simp [sendCall, exLib, exConn, exRaw, unmarshalBRPOPValue, newCallsConn, expiryCheck, exStore,
      delAndPTTLScript, Store.pttl, durationMul, toDuration, wrap64, Millisecond]
  ⟨h, sendCall_ttlAfterRead exLib (exConn 5000) exRaw _ h⟩

/-! ### C3 -/

/-- Once a key is absent and is not written, every later check on it reads
the missing-key value. -/
theorem observed_absent (key : String) (ops : List StoreOp) :
    ∀ s : Store, s key = none → (∀ ttl, StoreOp.write key ttl ∉ ops) →
      ∀ r ∈ observed key s ops, r = -2 := by
  induction ops with
  | nil => intro s _ _ r hr; simp [observed] at hr
  | cons op ops ih =>
    intro s hs hw r hr
    have hw1 : ∀ ttl, StoreOp.write key ttl ∉ ops := fun ttl hm =>
      hw ttl (List.mem_cons_of_mem _ hm)
    cases op with
    | check k =>
      have hdel : (delAndPTTLScript s k).2 key = none := by
        simp only [delAndPTTLScript, Store.del]
        split
        · rfl
        · exact hs
      simp only [observed] at hr
      split at hr
      · rename_i hk
        rcases List.mem_cons.1 hr with h | h
        · rw [h, hk]; simp [delAndPTTLScript, Store.pttl, hs]
        · exact ih _ hdel hw1 r h
      · exact ih _ hdel hw1 r hr
    | write k ttl =>
      have hk : key ≠ k := by
        intro h
        exact hw ttl (by rw [h]; exact List.mem_cons_self _ _)
      simp only [observed] at hr
      refine ih (s.set k ttl) ?_ hw1 r hr
      simp [Store.set, hk, hs]
    | elapse d =>
      simp only [observed] at hr
      refine ih (s.elapse d) ?_ hw1 r hr
      simp [Store.elapse, hs]

/-- In a sequence of operations without a write of the key, every check on
the key but the first reads the missing-key value. -/
theorem observed_tail (key : String) (ops : List StoreOp) :
    ∀ s : Store, (∀ ttl, StoreOp.write key ttl ∉ ops) →
      ∀ r ∈ (observed key s ops).tail, r = -2 := by
  induction ops with
  | nil => intro s _ r hr; simp [observed] at hr
  | cons op ops ih =>
    intro s hw r hr
    have hw1 : ∀ ttl, StoreOp.write key ttl ∉ ops := fun ttl hm =>
      hw ttl (List.mem_cons_of_mem _ hm)
    cases op with
    | check k =>
      simp only [observed] at hr
      split at hr
      · rename_i hk
        simp only [List.tail_cons] at hr
        refine observed_absent key ops _ ?_ hw1 r hr
        simp [delAndPTTLScript, Store.del, hk]
      · exact ih _ hw1 r hr
    | write k ttl =>
      simp only [observed] at hr
      exact ih _ hw1 r hr
    | elapse d =>
      simp only [observed] at hr
      exact ih _ hw1 r hr

/-- C3: on every store and key the script returns the PTTL the key had before,
leaves the key absent and every other key as it was. Hence in any sequence of
checks, of writes of other keys and of time passing, every check on the key
after the first reads the missing-key value -2 (so at most the first observes
a positive TTL), which is ≤ 0, and `sendCall` treats an entry whose timeout
key is absent as expired: nothing is sent. -/
theorem delAndPTTLScript_spec (s : Store) (key : String) :
    (delAndPTTLScript s key).1 = s.pttl key ∧
    (delAndPTTLScript s key).2 key = none ∧
    (∀ k, k ≠ key → (delAndPTTLScript s key).2 k = s k) ∧
    (delAndPTTLScript s key).2.pttl key = -2 ∧
    (∀ ops : List StoreOp, (∀ ttl, StoreOp.write key ttl ∉ ops) →
      (∀ r ∈ (observed key s ops).tail, r = -2) ∧
      ((observed key s ops).filter fun r => decide (0 < r)).length ≤ 1) ∧
    (-2 : Int) ≤ 0 ∧
    (∀ (L : Lib) (c : callsConn) (v : List Reply) (cp : CallPayload),
      unmarshalBRPOPValue L v = .ok cp → L.callTimeoutKey cp.URI cp.MsgUUID = key →
      c.pool.failure = none → c.pool.store key = none →
      specOutcome L c v = .expired ∧ (sendCall L c v).sent = c.sent) := by
  refine ⟨rfl, by simp [delAndPTTLScript, Store.del], ?_, ?_, ?_, by decide, ?_⟩
  · intro k hk; simp [delAndPTTLScript, Store.del, hk]
  · simp [delAndPTTLScript, Store.del, Store.pttl]
  · intro ops hw
    have ht := observed_tail key ops s hw
    refine ⟨ht, ?_⟩
    cases ho : observed key s ops with
    | nil => simp
    | cons a l =>
      rw [ho] at ht
      simp only [List.tail_cons] at ht
      have hl : l.filter (fun r => decide (0 < r)) = [] := by
        rw [List.filter_eq_nil_iff]
        intro r hr
        rw [ht r hr]
        decide
      rw [List.filter_cons]
      split <;> simp [hl]
  · intro L c v cp hd hk hf hs
    have hc : expiryCheck c.pool (L.callTimeoutKey cp.URI cp.MsgUUID)
        = (.ok (-2), { c.pool with store := c.pool.store.del key }) := by
      simp [expiryCheck, hf, hk, delAndPTTLScript, Store.pttl, hs]
    obtain ⟨h1, h2⟩ := sendCall_expired L c v cp (-2) _ hd hc (by decide)
    exact ⟨h2, by rw [h1]⟩

/-- Witness of C3: two checks of `k` around a write of another key and a
second of waiting; the first reads 5000, the second the missing-key value. -/
theorem delAndPTTLScript_spec_witness :
    observed "k" (exStore 5000)
      [.check "k", .write "j" (some 10), .elapse 1000, .check "k"] = [5000, -2] ∧
    (∀ r ∈ (observed "k" (exStore 5000)
      [.check "k", .write "j" (some 10), .elapse 1000, .check "k"]).tail, r = -2) :=
  ⟨by simp [observed, delAndPTTLScript, Store.pttl, Store.del, Store.set, Store.elapse, exStore],
   ((delAndPTTLScript_spec (exStore 5000) "k").2.2.2.2.1
      [.check "k", .write "j" (some 10), .elapse 1000, .check "k"]
      (by intro ttl; simp)).1⟩

/-! ### Calls: C7 and C9 -/

/-- After the first invocation, `Calls` returns `c.ch` and changes nothing. -/
theorem Calls_of_once (L : Lib) (c : callsConn) (h : c.once = true) :
    Calls L c = (c.ch, c) := by
  simp [Calls, h]

/-- The state after the first invocation has `once` set and the channel made. -/
theorem Calls_first (L : Lib) (c : callsConn) (h : c.once = false) :
    (Calls L c).2.once = true ∧ (Calls L c).1 = some c.chansMade ∧
    (Calls L c).2.ch = some c.chansMade := by
  simp [Calls, h]

/-- Repeating `Calls` on a started `callsConn` returns `c.ch` each time and
leaves the state as it is. -/
theorem callsTimes_of_once (L : Lib) (n : Nat) :
    ∀ c : callsConn, c.once = true →
      callsTimes L n c = (List.replicate n c.ch, c) := by
  induction n with
  | zero => intro c _; rfl
  | succ n ih =>
    intro c h
    simp only [callsTimes, Calls_of_once L c h, ih c h, List.replicate_succ]

/-- C7: on a `callsConn` whose `sync.Once` has not fired, any number n ≥ 1 of
invocations of `Calls` all return the same stream (the channel made by the
first), the state after them is the state after the first alone, in which
exactly one channel has been made and exactly one poll loop started, and an
invocation on that state returns the same stream and changes nothing. -/
theorem Calls_idempotent (L : Lib) (c : callsConn) (n : Nat) (h : c.once = false)
    (hn : 1 ≤ n) :
    (callsTimes L n c).1 = List.replicate n (some c.chansMade) ∧
    (callsTimes L n c).2 = (Calls L c).2 ∧
    (Calls L c).2.chansMade = c.chansMade + 1 ∧
    (Calls L c).2.pollLoops.length = c.pollLoops.length + 1 ∧
    Calls L (Calls L c).2 = ((Calls L c).1, (Calls L c).2) := by
  obtain ⟨h1, h2, h3⟩ := Calls_first L c h
  refine ⟨?_, ?_, by simp [Calls, h], by simp [Calls, h], ?_⟩
  · obtain ⟨m, rfl⟩ : ∃ m, n = m + 1 := ⟨n - 1, by omega⟩
    simp only [callsTimes, callsTimes_of_once L m _ h1, h2, h3, List.replicate_succ]
  · obtain ⟨m, rfl⟩ : ∃ m, n = m + 1 := ⟨n - 1, by omega⟩
    simp only [callsTimes, callsTimes_of_once L m _ h1]
  · rw [Calls_of_once L _ h1, h2, h3]

/-- Witness of C7: three invocations on a fresh `callsConn`. -/
theorem Calls_idempotent_witness :
    (callsTimes exLib 3 (exConn 5000)).1 = [some 0, some 0, some 0] ∧
    (callsTimes exLib 3 (exConn 5000)).2.chansMade = 1 ∧
    (callsTimes exLib 3 (exConn 5000)).2.pollLoops.length = 1 := by
  have h := Calls_idempotent exLib (exConn 5000) 3 rfl (by decide)
  refine ⟨h.1, ?_, ?_⟩
  · rw [h.2.1, h.2.2.1]; rfl
  · rw [h.2.1, h.2.2.2.1]; rfl

/-- C9: for every list of URIs and every timeout d with 0 ≤ d (a
`time.Duration`, so at most the largest int64), the argument list that the
first `Calls` hands to the poll loop has one more element than there are URIs:
at position i the queue key of the i-th URI, and last the integer d / 1s
rounded toward zero. That integer times one second is at most d and within
less than a second of it, and it is 0 when d is shorter than a second. -/
theorem Calls_args (L : Lib) (c : callsConn) (h : c.once = false) (h0 : 0 ≤ c.timeout)
    (h1 : c.timeout ≤ maxInt64) :
    ∃ args, (Calls L c).2.pollLoops = c.pollLoops ++ [args] ∧
      args.length = c.uris.length + 1 ∧
      (∀ i (hi : i < c.uris.length), args[i]? = some (Arg.str (L.callKey c.uris[i]))) ∧
      args[c.uris.length]? = some (Arg.int (Int.tdiv c.timeout Second)) ∧
      Int.tdiv c.timeout Second * Second ≤ c.timeout ∧
      c.timeout < (Int.tdiv c.timeout Second + 1) * Second ∧
      (c.timeout < Second → Int.tdiv c.timeout Second = 0) := by
  obtain ⟨t, ht⟩ : ∃ t : Int, t = c.timeout := ⟨_, rfl⟩
  have h0 : (0 : Int) ≤ t := by rw [ht]; exact h0
  have hmax : t ≤ (9223372036854775807 : Int) := by rw [ht]; exact h1
  rw [← ht]
  have hdiv : Int.tdiv t Second = t / (1000000000 : Int) := by
    rw [Int.tdiv_eq_ediv h0 (by unfold Second; decide)]; rfl
  have hq0 : (0 : Int) ≤ t / (1000000000 : Int) := Int.ediv_nonneg h0 (by decide)
  have hq1 : t / (1000000000 : Int) * (1000000000 : Int) ≤ t :=
    Int.ediv_mul_le _ (by decide)
  have hq2 : t < (t / (1000000000 : Int) + 1) * (1000000000 : Int) :=
    Int.lt_ediv_add_one_mul_self _ (by decide)
  have hw : wrap64 (durationDiv t Second) = Int.tdiv t Second := by
    unfold durationDiv
    rw [hdiv, wrap64_of_range (t / 1000000000) (by omega) (by omega),
      wrap64_of_range (t / 1000000000) (by omega) (by omega)]
  refine ⟨c.uris.map (fun u => Arg.str (L.callKey u)) ++ [Arg.int (Int.tdiv t Second)],
    ?_, by simp, ?_, ?_, ?_, ?_, ?_⟩
  · simp [Calls, h, ← ht, hw, Function.comp_def]
  · intro i hi
    rw [List.getElem?_append_left (by simpa using hi)]
    simp [List.getElem?_eq_getElem hi]
  · rw [List.getElem?_append_right (by simp)]
    simp
  · rw [hdiv]; exact hq1
  · rw [hdiv]; exact hq2
  · intro hlt
    rw [hdiv]
    exact Int.ediv_eq_zero_of_lt h0 hlt

/-- Witness of C9: one URI polled with a timeout of 2.5 s gives the queue key
and a timeout of 2 whole seconds. -/
theorem Calls_args_witness :
    (Calls exLib (exConn 5000)).2.pollLoops
      = [[Arg.str "juggler:calls:\x7bsvc.echo\x7d", Arg.int 2]] ∧
    ∃ args, (Calls exLib (exConn 5000)).2.pollLoops = (exConn 5000).pollLoops ++ [args] ∧
      args.length = (exConn 5000).uris.length + 1 :=
  ⟨by simp [Calls, exConn, exLib, newCallsConn, durationDiv, Second, wrap64]; decide,
   (Calls_args exLib (exConn 5000) rfl (by decide) (by decide)).imp fun _ h => ⟨h.1, h.2.1⟩⟩

/-! ### The transition system: helper lemmas -/

theorem pending_append (ts : List Task) (t : Task) :
    pending (ts ++ [t]) = pending ts + (if t.pc = .done then 0 else 1) := by
  induction ts with
  | nil => simp [pending]
  | cons a ts ih =>
    show pending (a :: (ts ++ [t])) = _
    simp only [pending]
    rw [ih]
    omega

theorem pending_set (ts : List Task) :
    ∀ (i : Nat) (t : Task) (pc : TaskPC), ts[i]? = some t →
      pending (ts.set i { t with pc := pc }) + (if t.pc = .done then 0 else 1)
        = pending ts + (if pc = .done then 0 else 1) := by
  induction ts with
  | nil => intro i t pc h; simp at h
  | cons a ts ih =>
    intro i t pc h
    cases i with
    | zero =>
      simp only [List.getElem?_cons_zero, Option.some.injEq] at h
      subst h
      simp only [List.set_cons_zero, pending]
      omega
    | succ i =>
      simp only [List.getElem?_cons_succ] at h
      have := ih i t pc h
      simp only [List.set_cons_succ, pending]
      omega

theorem pending_pos (ts : List Task) :
    ∀ (i : Nat) (t : Task), ts[i]? = some t → t.pc ≠ .done → 0 < pending ts := by
  induction ts with
  | nil => intro i t h; simp at h
  | cons a ts ih =>
    intro i t h hpc
    cases i with
    | zero =>
      simp only [List.getElem?_cons_zero, Option.some.injEq] at h
      subst h
      simp [pending, hpc]
    | succ i =>
      simp only [List.getElem?_cons_succ] at h
      have := ih i t h hpc
      simp only [pending]
      omega

theorem pending_eq_zero (ts : List Task) (h : pending ts = 0) : ∀ t ∈ ts, t.pc = .done := by
  induction ts with
  | nil => intro t ht; simp at ht
  | cons a ts ih =>
    intro t ht
    simp only [pending] at h
    rcases List.mem_cons.1 ht with rfl | h1
    · by_contra hne
      simp [hne] at h
    · exact ih (by omega) t h1

theorem map_v_set (ts : List Task) (i : Nat) (t : Task) (pc : TaskPC) (h : ts[i]? = some t) :
    (ts.set i { t with pc := pc }).map (fun t => t.v) = ts.map (fun t => t.v) := by
  rw [List.map_set]
  apply List.ext_getElem?
  intro j
  by_cases hj : i = j
  · subst hj
    rcases List.getElem?_eq_some_iff.1 h with ⟨hi, _⟩
    rw [List.getElem?_set_self (by simpa using hi)]
    simp [h]
  · rw [List.getElem?_set_ne hj]

theorem sendCall_once_err (L : Lib) (c : callsConn) (v : List Reply) :
    (sendCall L c v).once = c.once ∧ (sendCall L c v).err = c.err := by
  cases hd : unmarshalBRPOPValue L v with
  | error e => rw [(sendCall_decodeFailure L c v e hd).1]; exact ⟨rfl, rfl⟩
  | ok cp =>
    rcases hc : expiryCheck c.pool (L.callTimeoutKey cp.URI cp.MsgUUID) with ⟨r, pool1⟩
    cases r with
    | error e => rw [(sendCall_pttlFailure L c v cp e pool1 hd hc).1]; exact ⟨rfl, rfl⟩
    | ok pttl =>
      by_cases hp : pttl ≤ 0
      · rw [(sendCall_expired L c v cp pttl pool1 hd hc hp).1]; exact ⟨rfl, rfl⟩
      · rw [(sendCall_delivered L c v cp pttl pool1 hd hc hp).1]; exact ⟨rfl, rfl⟩

theorem Calls_err (L : Lib) (c : callsConn) : (Calls L c).2.err = c.err := by
  unfold Calls
  split <;> rfl

theorem run_append (L : Lib) (es : List Event) :
    ∀ (s : Sys) (e : Event), run L s (es ++ [e]) =
      match run L s es with
      | some s1 => step L s1 e
      | none => none := by
  induction es with
  | nil =>
    intro s e
    simp only [List.nil_append, run]
    cases step L s e <;> rfl
  | cons a es ih =>
    intro s e
    simp only [List.cons_append, run]
    cases step L s a with
    | none => rfl
    | some s1 => exact ih s1 e

theorem popsOf_append (es : List Event) (e : Event) :
    popsOf (es ++ [e]) = popsOf es ++ popsOf [e] := by
  induction es with
  | nil => simp [popsOf]
  | cons a es ih => cases a <;> simp [popsOf, ih]

theorem valuesOf_append (rs : List PopResult) (r : PopResult) :
    valuesOf (rs ++ [r]) = valuesOf rs ++ valuesOf [r] := by
  induction rs with
  | nil => simp [valuesOf]
  | cons a rs ih => cases a <;> simp [valuesOf, ih]

/-- Every step preserves the invariant. -/
theorem step_Inv (L : Lib) (s s1 : Sys) (e : Event) (hi : Inv s) (hs : step L s e = some s1) :
    Inv s1 := by
  obtain ⟨hwg, hcl, hret, hcs, hls, hon⟩ := hi
  cases e with
  | calls =>
    simp only [step] at hs
    split at hs
    · cases hs; exact ⟨hwg, hcl, hret, hcs, hls, hon⟩
    · rename_i ho
      cases hs
      have hidle : s.loop = .idle := by
        by_contra hne
        exact ho (hon hne)
      have hclosed : s.closed = false := by
        cases hc : s.closed with
        | false => rfl
        | true => rw [hcl.1 hc] at hidle; cases hidle
      refine ⟨hwg, ?_, ?_, hcs, hls, ?_⟩
      · simp [hclosed]
      · intro h; cases h
      · intro _; simp [Calls, ho]
  | pop r =>
    simp only [step] at hs
    split at hs
    · rename_i hp
      cases hs
      have hclosed : s.closed = false := by
        cases hc : s.closed with
        | false => rfl
        | true => rw [hcl.1 hc] at hp; cases hp
      have honce := hon (by rw [hp]; decide)
      cases r with
      | value v =>
        refine ⟨?_, ?_, ?_, hcs, hls, ?_⟩
        · simp [pollCalls, pending_append, hwg]
        · simp [pollCalls, hclosed, hp]
        · intro h; simp [pollCalls, hp] at h
        · intro _; simpa [pollCalls] using honce
      | failure err =>
        by_cases he : err = GoError.errNil
        · refine ⟨?_, ?_, ?_, ?_, ?_, ?_⟩ <;> simp [pollCalls, he, hwg, hclosed, hp, hcs, hls, honce]
        · refine ⟨?_, ?_, ?_, ?_, ?_, ?_⟩ <;> simp [pollCalls, he, hwg, hclosed, hcs, hls, honce]
    · cases hs
  | run i =>
    simp only [step] at hs
    split at hs
    · rename_i t ht
      split at hs
      · rename_i hpc
        cases hs
        have hpos := pending_pos s.tasks i t ht (by rw [hpc]; decide)
        have hclosed : s.closed = false := by
          cases hc : s.closed with
          | false => rfl
          | true => have := hret (hcl.1 hc); omega
        have hset := pending_set s.tasks i t .finishing ht
        simp only [hpc] at hset
        refine ⟨?_, ?_, ?_, ?_, ?_, ?_⟩
        · simp at hset; simp only [hwg]; omega
        · exact hcl
        · exact hret
        · exact hcs
        · simp [hclosed, hls]
        · intro h; simp only [(sendCall_once_err L s.c t.v).1]; exact hon h
      · cases hs
    · cases hs
  | done i =>
    simp only [step] at hs
    split at hs
    · rename_i t ht
      split at hs
      · rename_i hpc
        cases hs
        have hset := pending_set s.tasks i t .done ht
        simp only [hpc] at hset
        refine ⟨?_, hcl, ?_, hcs, hls, hon⟩
        · simp at hset; simp only [hwg]; omega
        · intro h; have := hret h; simp only; omega
      · cases hs
    · cases hs
  | wake =>
    simp only [step] at hs
    split at hs
    · rename_i hw
      cases hs
      have hclosed : s.closed = false := by
        cases hc : s.closed with
        | false => rfl
        | true => rw [hcl.1 hc] at hw; cases hw.1
      refine ⟨hwg, by simp, fun _ => hw.2, ?_, hls, ?_⟩
      · simp [hcs, hclosed]
      · intro _; exact hon (by rw [hw.1]; decide)
    · cases hs

theorem init_Inv (c : callsConn) : Inv (init c) := by
  simp [Inv, init, pending]

/-- Every state reached from an invariant state satisfies the invariant. -/
theorem run_Inv (L : Lib) (es : List Event) :
    ∀ s s1 : Sys, Inv s → run L s es = some s1 → Inv s1 := by
  induction es with
  | nil => intro s s1 hi h; simp only [run, Option.some.injEq] at h; exact h ▸ hi
  | cons e es ih =>
    intro s s1 hi h
    simp only [run] at h
    cases hs : step L s e with
    | none => rw [hs] at h; cases h
    | some s2 => rw [hs] at h; exact ih s2 s1 (step_Inv L s s2 e hi hs) h

theorem last_of_split {α : Type} (pre : List α) :
    ∀ (post pre1 : List α) (x y : α), pre ++ x :: post = pre1 ++ [y] → x ∉ pre1 →
      post = [] ∧ x = y ∧ pre = pre1 := by
  induction pre with
  | nil =>
    intro post pre1 x y h hx
    cases pre1 with
    | nil =>
      simp only [List.nil_append, List.cons.injEq] at h
      exact ⟨h.2, h.1, rfl⟩
    | cons a l =>
      simp only [List.nil_append, List.cons_append, List.cons.injEq] at h
      exact absurd (by rw [h.1]; exact List.mem_cons_self _ _) hx
  | cons p ps ih =>
    intro post pre1 x y h hx
    cases pre1 with
    | nil =>
      simp only [List.cons_append, List.nil_append, List.cons.injEq] at h
      exact absurd h.2 (by simp)
    | cons a l =>
      simp only [List.cons_append, List.cons.injEq] at h
      obtain ⟨h1, h2, h3⟩ := ih post l x y h.2 (fun hm => hx (List.mem_cons_of_mem _ hm))
      exact ⟨h1, h2, by rw [h.1, h3]⟩

/-- Every step extends the relation between the state and the pop results. -/
theorem step_TraceInv (L : Lib) (s s1 : Sys) (e : Event) (rs : List PopResult) (hi : Inv s)
    (ht : TraceInv rs s) (hs : step L s e = some s1) : TraceInv (rs ++ popsOf [e]) s1 := by
  obtain ⟨hwg, hcl, hret, hcs, hls, hon⟩ := hi
  obtain ⟨hp, hv, hidle, hsoft, hhard⟩ := ht
  cases e with
  | calls =>
    simp only [popsOf, List.append_nil]
    simp only [step] at hs
    split at hs
    · cases hs; exact ⟨hp, hv, hidle, hsoft, hhard⟩
    · rename_i ho
      cases hs
      have hl : s.loop = .idle := by
        by_contra hne
        exact ho (hon hne)
      refine ⟨hp, hv, ?_, ?_, ?_⟩
      · intro h; cases h
      · intro _
        exact ⟨(hsoft (Or.inl hl)).1, by rw [Calls_err]; exact (hsoft (Or.inl hl)).2⟩
      · intro h; rcases h with h | h <;> cases h
  | pop r =>
    simp only [popsOf]
    simp only [step] at hs
    split at hs
    · rename_i hpoll
      cases hs
      obtain ⟨hall, herr⟩ := hsoft (Or.inr hpoll)
      cases r with
      | value v =>
        refine ⟨by simp [pollCalls, hp], ?_, ?_, ?_, ?_⟩
        · simp [pollCalls, hv, valuesOf_append, valuesOf]
        · intro h; simp [pollCalls, hpoll] at h
        · intro _
          refine ⟨?_, by simpa [pollCalls] using herr⟩
          intro r hr
          rcases List.mem_append.1 hr with h | h
          · exact hall r h
          · simp only [List.mem_singleton] at h; rw [h]; rfl
        · intro h; simp [pollCalls, hpoll] at h
      | failure err =>
        by_cases he : err = GoError.errNil
        · refine ⟨by simp [pollCalls, hp, he], ?_, ?_, ?_, ?_⟩
          · simp [pollCalls, he, hv, valuesOf_append, valuesOf]
          · intro h; simp [pollCalls, he, hpoll] at h
          · intro _
            refine ⟨?_, by simpa [pollCalls, he] using herr⟩
            intro r hr
            rcases List.mem_append.1 hr with h | h
            · exact hall r h
            · simp only [List.mem_singleton] at h; rw [h, he]; rfl
          · intro h; simp [pollCalls, he, hpoll] at h
        · refine ⟨by simp [pollCalls, hp, he], ?_, ?_, ?_, ?_⟩
          · simp [pollCalls, he, hv, valuesOf_append, valuesOf]
          · intro h; simp [pollCalls, he] at h
          · intro h; simp [pollCalls, he] at h
          · intro _
            exact ⟨rs, err, rfl, he, hall, by simp [pollCalls, he]⟩
    · cases hs
  | run i =>
    simp only [popsOf, List.append_nil]
    simp only [step] at hs
    split at hs
    · rename_i t htk
      split at hs
      · cases hs
        have herr := (sendCall_once_err L s.c t.v).2
        refine ⟨hp, ?_, hidle, ?_, ?_⟩
        · simp only [map_v_set s.tasks i t .finishing htk]; exact hv
        · intro h; exact ⟨(hsoft h).1, by simp only [herr]; exact (hsoft h).2⟩
        · intro h
          obtain ⟨pre, e, h1, h2, h3, h4⟩ := hhard h
          exact ⟨pre, e, h1, h2, h3, by simp only [herr]; exact h4⟩
      · cases hs
    · cases hs
  | done i =>
    simp only [popsOf, List.append_nil]
    simp only [step] at hs
    split at hs
    · rename_i t htk
      split at hs
      · cases hs
        refine ⟨hp, ?_, hidle, hsoft, hhard⟩
        simp only [map_v_set s.tasks i t .done htk]; exact hv
      · cases hs
    · cases hs
  | wake =>
    simp only [popsOf, List.append_nil]
    simp only [step] at hs
    split at hs
    · rename_i hw
      cases hs
      refine ⟨hp, hv, ?_, ?_, ?_⟩
      · intro h; cases h
      · intro h; rcases h with h | h <;> cases h
      · intro _; exact hhard (Or.inl hw.1)
    · cases hs

/-- Every state reached from the initial state of a CallSource without a
recorded error is related to the pop results of the trace. -/
theorem run_TraceInv (L : Lib) (c : callsConn) (hc : c.err = none) (es : List Event) :
    ∀ s1 : Sys, run L (init c) es = some s1 → TraceInv (popsOf es) s1 := by
  induction es using List.reverseRecOn with
  | nil =>
    intro s1 h
    simp only [run, Option.some.injEq] at h
    subst h
    simp [TraceInv, init, popsOf, valuesOf, hc]
  | append_singleton es e ih =>
    intro s1 h
    rw [run_append] at h
    cases hr : run L (init c) es with
    | none => rw [hr] at h; cases h
    | some s0 =>
      rw [hr] at h
      rw [popsOf_append]
      exact step_TraceInv L s0 s1 e _ (run_Inv L es _ _ (init_Inv c) hr) (ih s0 hr) h

/-- With only values and "no value" results so far, the loop is idle or
polling. -/
theorem soft_results_loop (rs : List PopResult) (s : Sys) (ht : TraceInv rs s)
    (hall : ∀ r ∈ rs, r.soft = true) : s.loop = .idle ∨ s.loop = .polling := by
  obtain ⟨_, _, _, _, hhard⟩ := ht
  have hnot : ¬ (s.loop = .waiting ∨ s.loop = .returned) := by
    intro hw
    obtain ⟨pre, e, h1, h2, _, _⟩ := hhard hw
    have := hall (.failure e) (by rw [h1]; simp)
    simp [PopResult.soft, h2] at this
  cases hl : s.loop with
  | idle => exact Or.inl rfl
  | polling => exact Or.inr rfl
  | waiting => exact absurd (Or.inl hl) hnot
  | returned => exact absurd (Or.inr hl) hnot

/-- A result that is an error other than `redis.ErrNil` is the last result,
it is the recorded error, and the loop has left the `for` loop. -/
theorem hard_result_last (rs : List PopResult) (s : Sys) (ht : TraceInv rs s)
    (pre post : List PopResult) (e : GoError) (hsplit : rs = pre ++ PopResult.failure e :: post)
    (he : e ≠ GoError.errNil) :
    post = [] ∧ (∀ r ∈ pre, r.soft = true) ∧ s.c.err = some e ∧
    (s.loop = .waiting ∨ s.loop = .returned) := by
  obtain ⟨_, _, _, hsoft, hhard⟩ := ht
  have hmem : PopResult.failure e ∈ rs := by rw [hsplit]; simp
  have hns : (PopResult.failure e).soft = false := by simp [PopResult.soft, he]
  have hw : s.loop = .waiting ∨ s.loop = .returned := by
    cases hl : s.loop with
    | idle => have := (hsoft (Or.inl hl)).1 _ hmem; rw [hns] at this; cases this
    | polling => have := (hsoft (Or.inr hl)).1 _ hmem; rw [hns] at this; cases this
    | waiting => exact Or.inl rfl
    | returned => exact Or.inr rfl
  obtain ⟨pre1, e1, h1, _, h3, h4⟩ := hhard hw
  have hnotin : PopResult.failure e ∉ pre1 := by
    intro hm
    have := h3 _ hm
    rw [hns] at this; cases this
  obtain ⟨hpost, hee, hpre⟩ := last_of_split pre post pre1 _ _ (hsplit.symm.trans h1) hnotin
  have hee1 : e = e1 := by injection hee
  exact ⟨hpost, by rw [hpre]; exact h3, by rw [hee1]; exact h4, hw⟩

/-! ### C4 -/

/-- C4: in every state reached by a CallSource that started without a recorded
error, with `rs` the results the blocking pop has returned so far: every
result was counted as one pop and exactly the value results, in order, got one
per-item task each ("no value" results got none); while all results are values
or "no value" the terminal error is nil and, after at least one result, the
loop is about to pop again; and a result that is any other error `e` is the
last result there is (no pop is enabled after it, so no further task
either), with `CallsErr` returning exactly `e` from then on. -/
theorem pollCalls_results (L : Lib) (c : callsConn) (es : List Event) (s : Sys)
    (hc : c.err = none) (h : run L (init c) es = some s) :
    s.pops = (popsOf es).length ∧
    s.tasks.map (fun t => t.v) = valuesOf (popsOf es) ∧
    ((∀ r ∈ popsOf es, r.soft = true) →
      CallsErr s.c = none ∧
      (popsOf es ≠ [] → s.loop = .polling ∧ ∀ r, (step L s (.pop r)).isSome = true)) ∧
    (∀ pre post e, popsOf es = pre ++ PopResult.failure e :: post → e ≠ GoError.errNil →
      post = [] ∧ (∀ r ∈ pre, r.soft = true) ∧ CallsErr s.c = some e ∧
      ∀ r, step L s (.pop r) = none) := by
  have ht := run_TraceInv L c hc es s h
  obtain ⟨hp, hv, hidle, hsoft, _⟩ := id ht
  refine ⟨hp, hv, ?_, ?_⟩
  · intro hall
    have hip := soft_results_loop _ s ht hall
    refine ⟨(hsoft hip).2, ?_⟩
    intro hne
    have hpoll : s.loop = .polling := by
      rcases hip with h1 | h1
      · exact absurd (hidle h1) hne
      · exact h1
    exact ⟨hpoll, fun r => by simp [step, hpoll]⟩
  · intro pre post e hsplit he
    obtain ⟨h1, h2, h3, hw⟩ := hard_result_last _ s ht pre post e hsplit he
    refine ⟨h1, h2, h3, ?_⟩
    intro r
    rcases hw with h5 | h5 <;> simp [step, h5]

/-- Witness of C4: in `exTraceClosed` the pops returned "no value", the entry
for `m1` and the fatal error; one task was started and the error recorded. -/
theorem pollCalls_results_witness :
    (run exLib (init (exConn 5000)) exTraceClosed).map
      (fun s => (s.pops, s.tasks.map (fun t => t.v), CallsErr s.c))
      = some (3, [exRaw], some exClosed) ∧
    ∃ s, run exLib (init (exConn 5000)) exTraceClosed = some s ∧
      s.pops = (popsOf exTraceClosed).length ∧
      s.tasks.map (fun t => t.v) = valuesOf (popsOf exTraceClosed) := by
  refine ⟨by decide, ?_⟩
  have hsome : (run exLib (init (exConn 5000)) exTraceClosed).isSome = true := by decide
  obtain ⟨s, hs⟩ := Option.isSome_iff_exists.1 hsome
  have h := pollCalls_results exLib (exConn 5000) exTraceClosed s rfl hs
  exact ⟨s, hs, h.1, h.2.1⟩

/-! ### C5 -/

/-- C5: in every reachable state of the poll loop with its per-item tasks, if
the output stream is closed then every task ever spawned has finished, the
WaitGroup counter is 0 and the loop has returned; `close` has run at most
once, and exactly once if the stream is closed; no send was ever attempted on
the closed stream; and once the stream is closed nothing can happen any more
except further invocations of `Calls`: no task can send, no second close. -/
theorem close_after_tasks (L : Lib) (c : callsConn) (es : List Event) (s : Sys)
    (h : run L (init c) es = some s) :
    (s.closed = true → (∀ t ∈ s.tasks, t.pc = .done) ∧ s.wg = 0 ∧ s.loop = .returned) ∧
    s.closes ≤ 1 ∧
    (s.closed = true ↔ s.closes = 1) ∧
    s.lateSends = 0 ∧
    (s.closed = true → ∀ e, e ≠ Event.calls → step L s e = none) := by
  obtain ⟨hwg, hcl, hret, hcs, hls, hon⟩ := run_Inv L es _ _ (init_Inv c) h
  have hdone : s.closed = true → ∀ t ∈ s.tasks, t.pc = .done := fun hc =>
    pending_eq_zero s.tasks (by rw [← hwg]; exact hret (hcl.1 hc))
  refine ⟨fun hc => ⟨hdone hc, hret (hcl.1 hc), hcl.1 hc⟩, ?_, ?_, hls, ?_⟩
  · rw [hcs]; split <;> omega
  · rw [hcs]; cases s.closed <;> simp
  · intro hc e he
    have hl := hcl.1 hc
    cases e with
    | calls => exact absurd rfl he
    | pop r => simp [step, hl]
    | wake => simp [step, hl]
    | run i =>
      simp only [step]
      split
      · rename_i t ht
        have := hdone hc t (List.getElem?_mem ht)
        simp [this]
      · rfl
    | done i =>
      simp only [step]
      split
      · rename_i t ht
        have := hdone hc t (List.getElem?_mem ht)
        simp [this]
      · rfl

/-- Witness of C5: at the end of `exTraceClosed` the stream is closed, once,
with the one task finished and its payload sent before the close. -/
theorem close_after_tasks_witness :
    (run exLib (init (exConn 5000)) exTraceClosed).map
      (fun s => (s.closed, s.closes, s.tasks.map (fun t => t.pc), s.c.sent.length, s.lateSends))
      = some (true, 1, [TaskPC.done], 1, 0) ∧
    ∃ s, run exLib (init (exConn 5000)) exTraceClosed = some s ∧ s.closes ≤ 1 ∧
      s.lateSends = 0 := by
  refine ⟨by decide, ?_⟩
  have hsome : (run exLib (init (exConn 5000)) exTraceClosed).isSome = true := by decide
  obtain ⟨s, hs⟩ := Option.isSome_iff_exists.1 hsome
  have h := close_after_tasks exLib (exConn 5000) exTraceClosed s hs
  exact ⟨s, hs, h.2.1, h.2.2.2.1⟩

/-! ### C6 -/

/-- C6 fails as stated: after `exTraceOpen` the poll loop has recorded the
fatal error and waits for the task of `m1`; the stream is not closed, yet
`CallsErr` already returns the error. -/
theorem CallsErr_before_close :
    (run exLib (init (exConn 5000)) exTraceOpen).map
      (fun s => (s.closed, CallsErr s.c, s.loop, s.tasks.map (fun t => t.pc)))
      = some (false, some exClosed, LoopPC.waiting, [TaskPC.spawned]) := by
  decide

/-- C6, amended: in every reachable state of a CallSource that started without
a recorded error, `CallsErr` returns nil as long as no blocking pop has failed
with an error other than "no value" (and the stream is then not closed); from
the moment such an error `e` has been returned to the poll loop, `CallsErr`
returns `e`; and once the stream has closed, `CallsErr` returns the error that
stopped the poll loop, which is not nil. -/
theorem CallsErr_terminal (L : Lib) (c : callsConn) (es : List Event) (s : Sys)
    (hc : c.err = none) (h : run L (init c) es = some s) :
    ((∀ r ∈ popsOf es, r.soft = true) → CallsErr s.c = none ∧ s.closed = false) ∧
    (∀ e, PopResult.failure e ∈ popsOf es → e ≠ GoError.errNil → CallsErr s.c = some e) ∧
    (s.closed = true →
      ∃ e, e ≠ GoError.errNil ∧ PopResult.failure e ∈ popsOf es ∧ CallsErr s.c = some e) := by
  have ht := run_TraceInv L c hc es s h
  obtain ⟨_, _, _, hsoft, hhard⟩ := id ht
  obtain ⟨_, hcl, _, _, _, _⟩ := run_Inv L es _ _ (init_Inv c) h
  refine ⟨?_, ?_, ?_⟩
  · intro hall
    have hip := soft_results_loop _ s ht hall
    refine ⟨(hsoft hip).2, ?_⟩
    cases hcd : s.closed with
    | false => rfl
    | true =>
      have hr := hcl.1 hcd
      rcases hip with h1 | h1 <;> rw [hr] at h1 <;> cases h1
  · intro e hmem he
    obtain ⟨pre, post, hsplit⟩ := List.append_of_mem hmem
    exact (hard_result_last _ s ht pre post e hsplit he).2.2.1
  · intro hcd
    obtain ⟨pre, e, h1, h2, _, h4⟩ := hhard (Or.inr (hcl.1 hcd))
    exact ⟨e, h2, by rw [h1]; simp, h4⟩

/-- Witness of C6 (amended): at the end of `exTraceClosed` the stream is closed
and `CallsErr` returns the error of the failed pop. -/
theorem CallsErr_terminal_witness :
    (run exLib (init (exConn 5000)) exTraceClosed).map (fun s => (s.closed, CallsErr s.c))
      = some (true, some exClosed) ∧
    ∃ s, run exLib (init (exConn 5000)) exTraceClosed = some s ∧
      CallsErr s.c = some exClosed := by
  refine ⟨by decide, ?_⟩
  have hsome : (run exLib (init (exConn 5000)) exTraceClosed).isSome = true := by decide
  obtain ⟨s, hs⟩ := Option.isSome_iff_exists.1 hsome
  have h := CallsErr_terminal exLib (exConn 5000) exTraceClosed s rfl hs
  exact ⟨s, hs, h.2.1 exClosed (by decide) (by decide)⟩

/-! ### C10 -/

theorem addSlots_eq (n : Nat) :
    ∀ (args : List Arg) (j : Nat),
      addSlots args j n = args ++ (List.range' j n).map (fun k : Nat => Arg.int (k : Int)) := by
  induction n with
  | zero => intro args j; simp [addSlots]
  | succ n ih =>
    intro args j
    simp only [addSlots, ih, List.range'_succ, List.map_cons, List.append_assoc,
      List.singleton_append]

theorem slotsOf_append (as bs : List Arg) : slotsOf (as ++ bs) = slotsOf as ++ slotsOf bs := by
  induction as with
  | nil => rfl
  | cons a as ih => cases a <;> simp [slotsOf, ih]

theorem slotsOf_str_cons (s : String) (as : List Arg) :
    slotsOf (Arg.str s :: as) = slotsOf as := rfl

theorem slotsOf_map_int (l : List Nat) :
    slotsOf (l.map fun k : Nat => Arg.int (k : Int)) = l.map fun k : Nat => (k : Int) := by
  induction l with
  | nil => rfl
  | cons a l ih => simp [slotsOf, ih]

theorem mem_map_range' (slot : Int) (a n : Nat) :
    slot ∈ (List.range' a n).map (fun k : Nat => (k : Int)) ↔ (a : Int) ≤ slot ∧ slot < a + n := by
  simp only [List.mem_map, List.mem_range'_1]
  constructor
  · rintro ⟨k, ⟨h1, h2⟩, rfl⟩
    omega
  · intro ⟨h1, h2⟩
    exact ⟨slot.toNat, by omega, by omega⟩

theorem nodup_map_range' (a n : Nat) : ((List.range' a n).map fun k : Nat => (k : Int)).Nodup :=
  (List.nodup_range' a n).map (fun _ _ h => Int.ofNat.inj h)

/-- The argument list of each of the three nodes. -/
theorem addSlotsArgs_eq :
    addSlotsArgs 0 = Arg.str "ADDSLOTS" :: (List.range' 0 5461).map (fun k : Nat => Arg.int (k : Int)) ∧
    addSlotsArgs 1
      = Arg.str "ADDSLOTS" :: (List.range' 5461 5461).map (fun k : Nat => Arg.int (k : Int)) ∧
    addSlotsArgs 2
      = Arg.str "ADDSLOTS" :: ((List.range' 10922 5461).map (fun k : Nat => Arg.int (k : Int))
          ++ (List.range' 16383 1).map (fun k : Nat => Arg.int (k : Int))) := by
  refine ⟨?_, ?_, ?_⟩
  · have h : ¬ (0 = numNodes - 1) := by decide
    simp only [addSlotsArgs, h, if_false, addSlots_eq]
    rfl
  · have h : ¬ (1 = numNodes - 1) := by decide
    simp only [addSlotsArgs, h, if_false, addSlots_eq]
    rfl
  · have h : 2 = numNodes - 1 := by decide
    simp only [addSlotsArgs, h, if_true, addSlots_eq]
    rfl

/-- C10: the slots that `StartCluster` sends with `CLUSTER ADDSLOTS` to its 3
nodes partition the slot space. Nodes 0 and 1 get the 16384/3 = 5461
consecutive slots from 0 and from 5461, node 2 gets the 5461 slots from 10922
followed by the one slot the division leaves over (16383), 5462 in all; no
argument list repeats a slot; every slot number in 0..16383 is in the list of
exactly one node; and no number outside 0..16383 is in any list. -/
theorem addSlots_partition :
    slotsPerNode = 5461 ∧
    slotsOf (addSlotsArgs 0) = (List.range' 0 5461).map (fun k : Nat => (k : Int)) ∧
    slotsOf (addSlotsArgs 1) = (List.range' 5461 5461).map (fun k : Nat => (k : Int)) ∧
    slotsOf (addSlotsArgs 2) = (List.range' 10922 5461).map (fun k : Nat => (k : Int))
      ++ (List.range' (slotsPerNode * numNodes) (hashSlots - slotsPerNode * numNodes)).map
          (fun k : Nat => (k : Int)) ∧
    (List.range' (slotsPerNode * numNodes) (hashSlots - slotsPerNode * numNodes)) = [16383] ∧
    (slotsOf (addSlotsArgs 2)).length = 5462 ∧
    (∀ i, i < numNodes → (slotsOf (addSlotsArgs i)).Nodup) ∧
    (∀ slot : Int, 0 ≤ slot → slot < 16384 →
      ∃ i, i < numNodes ∧ slot ∈ slotsOf (addSlotsArgs i) ∧
        ∀ j, j < numNodes → slot ∈ slotsOf (addSlotsArgs j) → j = i) ∧
    (∀ i, i < numNodes → ∀ slot ∈ slotsOf (addSlotsArgs i), 0 ≤ slot ∧ slot < 16384) := by
  obtain ⟨e0, e1, e2⟩ := addSlotsArgs_eq
  have s0 : slotsOf (addSlotsArgs 0) = (List.range' 0 5461).map (fun k : Nat => (k : Int)) := by
    rw [e0, slotsOf_str_cons, slotsOf_map_int]
  have s1 : slotsOf (addSlotsArgs 1) = (List.range' 5461 5461).map (fun k : Nat => (k : Int)) := by
    rw [e1, slotsOf_str_cons, slotsOf_map_int]
  have s2 : slotsOf (addSlotsArgs 2) = (List.range' 10922 5461).map (fun k : Nat => (k : Int))
      ++ (List.range' 16383 1).map (fun k : Nat => (k : Int)) := by
    rw [e2, slotsOf_str_cons, slotsOf_append, slotsOf_map_int, slotsOf_map_int]
  have s2b : slotsOf (addSlotsArgs 2) = (List.range' 10922 5462).map (fun k : Nat => (k : Int)) := by
    rw [s2, ← List.map_append, List.range'_append_1 10922 5461 1]
  have m0 : ∀ slot : Int, slot ∈ slotsOf (addSlotsArgs 0) ↔ 0 ≤ slot ∧ slot < 5461 := by
    intro slot; rw [s0, mem_map_range']; constructor <;> intro h <;> constructor <;> omega
  have m1 : ∀ slot : Int, slot ∈ slotsOf (addSlotsArgs 1) ↔ 5461 ≤ slot ∧ slot < 10922 := by
    intro slot; rw [s1, mem_map_range']; constructor <;> intro h <;> constructor <;> omega
  have m2 : ∀ slot : Int, slot ∈ slotsOf (addSlotsArgs 2) ↔ 10922 ≤ slot ∧ slot < 16384 := by
    intro slot; rw [s2b, mem_map_range']; constructor <;> intro h <;> constructor <;> omega
  have hnodes : ∀ i, i < numNodes → i = 0 ∨ i = 1 ∨ i = 2 := by
    intro i hi; unfold numNodes at hi; omega
  refine ⟨by decide, s0, s1, s2, by decide, by rw [s2b, List.length_map, List.length_range'], ?_, ?_, ?_⟩
  · intro i hi
    rcases hnodes i hi with rfl | rfl | rfl
    · rw [s0]; exact nodup_map_range' _ _
    · rw [s1]; exact nodup_map_range' _ _
    · rw [s2b]; exact nodup_map_range' _ _
  · intro slot h0 h1
    by_cases ha : slot < 5461
    · refine ⟨0, by decide, (m0 slot).2 ⟨h0, ha⟩, ?_⟩
      intro j hj hm
      rcases hnodes j hj with rfl | rfl | rfl
      · rfl
      · have := (m1 slot).1 hm; omega
      · have := (m2 slot).1 hm; omega
    · by_cases hb : slot < 10922
      · refine ⟨1, by decide, (m1 slot).2 ⟨by omega, hb⟩, ?_⟩
        intro j hj hm
        rcases hnodes j hj with rfl | rfl | rfl
        · have := (m0 slot).1 hm; omega
        · rfl
        · have := (m2 slot).1 hm; omega
      · refine ⟨2, by decide, (m2 slot).2 ⟨by omega, h1⟩, ?_⟩
        intro j hj hm
        rcases hnodes j hj with rfl | rfl | rfl
        · have := (m0 slot).1 hm; omega
        · have := (m1 slot).1 hm; omega
        · rfl
  · intro i hi slot hm
    rcases hnodes i hi with rfl | rfl | rfl
    · have := (m0 slot).1 hm; omega
    · have := (m1 slot).1 hm; omega
    · have := (m2 slot).1 hm; omega

/-- Witness of C10: the left-over slot 16383 goes to the last node and to no
other. -/
theorem addSlots_partition_witness :
    ∃ i, i < numNodes ∧ (16383 : Int) ∈ slotsOf (addSlotsArgs i) ∧
      ∀ j, j < numNodes → (16383 : Int) ∈ slotsOf (addSlotsArgs j) → j = i :=
  addSlots_partition.2.2.2.2.2.2.2.1 16383 (by decide) (by decide)

/-! ### C8 -/

/-- The loop over the startup nodes fails exactly when every node fails to
answer the topology query. -/
theorem queryNodes_error_iff (net : String → Node) (nodes : List String) :
    ∀ errs : List String,
      (∃ errs1, queryNodes net nodes errs = .error errs1) ↔
        ∀ a ∈ nodes, ∃ e, topologyQuery net a = .error e := by
  induction nodes with
  | nil => intro errs; simp [queryNodes]
  | cons a rest ih =>
    intro errs
    simp only [queryNodes, List.mem_cons, forall_eq_or_imp]
    cases hq : topologyQuery net a with
    | ok m => simp
    | error e => simpa using ih (errs ++ [e])

theorem contains_left (s t : String) : Contains (s ++ t) s := by
  unfold Contains
  rw [String.data_append]
  exact ⟨[], t.data, by simp⟩

/-- C8: for every non-empty list of startup nodes, `RefreshMapping` returns an
error if and only if every startup node fails to answer the topology query,
and every error it returns contains "redisc: all nodes failed"; it fails in
this way when the only startup node is a server that is not in cluster mode,
and returns no error when the startup nodes are all nodes of a cluster. -/
theorem RefreshMapping_error (net : String → Node) (c : Cluster) (hne : c.StartupNodes ≠ []) :
    ((RefreshMapping net c).1 ≠ none ↔
      ∀ a ∈ c.StartupNodes, ∃ e, topologyQuery net a = .error e) ∧
    (∀ err, (RefreshMapping net c).1 = some err →
      Contains err.Error "redisc: all nodes failed") ∧
    (∀ a, c.StartupNodes = [a] → net a = .standalone →
      ∃ err, (RefreshMapping net c).1 = some err ∧
        Contains err.Error "redisc: all nodes failed") ∧
    ((∀ a ∈ c.StartupNodes, ∃ m, net a = .clustered m) → (RefreshMapping net c).1 = none) := by
  have hiff := queryNodes_error_iff net c.StartupNodes []
  have hcont : ∀ err, (RefreshMapping net c).1 = some err →
      Contains err.Error "redisc: all nodes failed" := by
    intro err herr
    unfold RefreshMapping at herr
    cases hq : queryNodes net c.StartupNodes [] with
    | ok m => rw [hq] at herr; cases herr
    | error errs =>
      rw [hq] at herr
      simp only [Option.some.injEq] at herr
      rw [← herr]
      exact contains_left _ _
  have hfirst : (RefreshMapping net c).1 ≠ none ↔
      ∀ a ∈ c.StartupNodes, ∃ e, topologyQuery net a = .error e := by
    rw [← hiff]
    unfold RefreshMapping
    cases hq : queryNodes net c.StartupNodes [] with
    | ok m => simp
    | error errs => simp
  refine ⟨hfirst, hcont, ?_, ?_⟩
  · intro a ha hs
    have hall : ∀ b ∈ c.StartupNodes, ∃ e, topologyQuery net b = .error e := by
      intro b hb
      rw [ha, List.mem_singleton] at hb
      subst hb
      exact ⟨b ++ ": ERR This instance has cluster support disabled", by
        simp only [topologyQuery, hs]⟩
    cases herr : (RefreshMapping net c).1 with
    | none => exact absurd herr (hfirst.2 hall)
    | some err => exact ⟨err, rfl, hcont err herr⟩
  · intro hall
    by_contra hcon
    obtain ⟨a, ha⟩ := List.exists_mem_of_ne_nil _ hne
    obtain ⟨e, he⟩ := hfirst.1 hcon a ha
    obtain ⟨m, hm⟩ := hall a ha
    simp [topologyQuery, hm] at he

/-- Witness of C8: the one startup node of `TestRefreshMappingNonCluster`, a
server that is not in cluster mode. -/
theorem RefreshMapping_error_witness :
    ∃ err, (RefreshMapping (fun _ => Node.standalone)
        { StartupNodes := [":6379"], mapping := none }).1 = some err ∧
      Contains err.Error "redisc: all nodes failed" :=
  (RefreshMapping_error (fun _ => Node.standalone) { StartupNodes := [":6379"], mapping := none }
    (by simp)).2.2.1 ":6379" rfl rfl

end Juggler
